import Mathlib

/-!
Verification of `src/diffoscope/comparators/alpine_apk.py` (Alpine APK
comparator).  The Python module is shallowly embedded: bytes are `Nat`
values, file paths and path fragments are lists of characters, the results
of external tools and of the filesystem are supplied as environments
(functions), and exceptions are `Except` values.  All definitions are
executable so that concrete runs of the model can be checked by `decide`,
`rfl` or `simp`.
-/

/-- A relative path (or any string the comparator manipulates), as the list
of its characters.  Python compares strings lexicographically by code
point, which is the lexicographic order on the character list. -/
abbrev RelPath := List Char

/-- The path separator `os.path.join` and `os.walk` use. -/
def slash : Char := '/'

/-- Strict lexicographic comparison of two paths, character by character:
the order Python's string `<` implements. -/
def pathLtB : RelPath → RelPath → Bool
  | [], [] => false
  | [], _ :: _ => true
  | _ :: _, [] => false
  | a :: as, b :: bs => if a < b then true else if b < a then false else pathLtB as bs

/-- Non-strict lexicographic comparison (Python string `<=`), the order
`list.sort()` sorts by. -/
def pathLe (a b : RelPath) : Bool := ! pathLtB b a

/-- The sort relation used for the `files.sort()` call of `open_archive`. -/
abbrev fileOrder : RelPath → RelPath → Prop := fun a b => pathLe a b = true

/-- The gzip magic bytes `\x1f\x8b` checked by `detect_apk_version` for
APK v2. -/
def gzipMagic : List Nat := [0x1f, 0x8b]

/-- The bytes of `"ADBd"` checked by `detect_apk_version` for APK v3. -/
def adbdMagic : List Nat := [0x41, 0x44, 0x42, 0x64]

/-- `detect_apk_version(path)` (alpine_apk.py lines 35-47).  The argument
is the outcome of `open(path, "rb")` plus the read: `none` models an
`IOError`/`OSError` (unreadable file), `some bytes` the file's contents.
The function reads `f.read(16)` (here `bytes.take 16`) and tests the two
`startswith` conditions in source order; the `except` clause that returns
`None` is the `none` branch. -/
def detect_apk_version (content : Option (List Nat)) : Option Nat :=
  match content with
  | none => none
  | some bytes =>
    let header := bytes.take 16
    if adbdMagic.isPrefixOf header then some 3
    else if gzipMagic.isPrefixOf header then some 2
    else none

/-- An input file as `AlpineApkFile.recognizes` sees it: its name and the
outcome of reading it (as in `detect_apk_version`, `none` models an
unreadable file). -/
structure ModelFile where
  name : List Char
  content : Option (List Nat)

/-- The characters of the `".apk"` extension tested by
`file.name.endswith('.apk')`. -/
def apkSuffix : List Char := ['.', 'a', 'p', 'k']

/-- `AlpineApkFile.recognizes` (lines 189-208): `False` unless the name
ends in `.apk`; then the first 16 bytes of the file are read and tested
against the two magics, an unreadable file (the `except` clause) giving
`False`. -/
def recognizes (f : ModelFile) : Bool :=
  if ! apkSuffix.isSuffixOf f.name then false
  else
    match f.content with
    | none => false
    | some bytes =>
      let header := bytes.take 16
      if adbdMagic.isPrefixOf header then true
      else if gzipMagic.isPrefixOf header then true
      else false

/-- Which container class `AlpineApkFile.as_container` instantiates. -/
inductive ApkContainerKind where
  | v2
  | v3
deriving DecidableEq

/-- `AlpineApkFile.as_container` (lines 210-218): dispatch on
`detect_apk_version` — `3` gives the v3 container, `2` the v2 container,
anything else `None`. -/
def as_container (f : ModelFile) : Option ApkContainerKind :=
  let version := detect_apk_version f.content
  if version = some 3 then some .v3
  else if version = some 2 then some .v2
  else none

/-- The extracted workspace as a directory tree: the files of the current
directory and the named subdirectories.  This is what `os.walk` traverses
after extraction has populated the temporary directory. -/
inductive FsTree where
  | node (files : List RelPath) (dirs : List (RelPath × FsTree))

/-- A well-formed filesystem tree: names within one directory are unique
(a filesystem guarantees this), no file or directory name contains the
path separator, and subtrees are well formed.  These are exactly the
invariants an on-disk directory extracted by `tar`/`apk` satisfies. -/
inductive FsTree.WF : FsTree → Prop
  | node {files : List RelPath} {dirs : List (RelPath × FsTree)} :
      files.Nodup →
      (List.map Prod.fst dirs).Nodup →
      (∀ f ∈ files, slash ∉ f) →
      (∀ d ∈ dirs, slash ∉ d.1) →
      (∀ d ∈ dirs, FsTree.WF d.2) →
      FsTree.WF (.node files dirs)

/-- The member-collection loop shared verbatim by
`AlpineApkV2Container.open_archive` (lines 102-111) and
`AlpineApkV3Container.open_archive` (lines 158-167):
`os.walk` walks top-down, at each directory `dirs.sort()` and
`files.sort()` are called, the files of the current directory are emitted
(as paths relative to the workspace root, i.e. components joined by `/`),
and the walk then descends into the sorted subdirectories.  Python's
`list.sort()` is a stable sort by `<=`; as the comparisons here are on
`Nodup` name lists, `List.insertionSort` by the same order produces the
identical sequence. -/
def walkMembers : FsTree → List RelPath
  | .node files dirs =>
    List.insertionSort fileOrder files ++
      (List.insertionSort (fun a b => pathLe a.1.1 b.1.1 = true) dirs.attach).flatMap
        (fun x => (walkMembers x.1.2).map (fun p => x.1.1 ++ slash :: p))
decreasing_by
  obtain ⟨⟨d, t⟩, hmem⟩ := x
  have h := List.sizeOf_lt_of_mem hmem
  simp only [Prod.mk.sizeOf_spec] at h
  simp only [FsTree.node.sizeOf_spec]
  omega

/-- The temporary directory handle returned by
`get_temporary_directory(...)`: its name and whether it has been released.

Modelled from the spec: `get_temporary_directory` lives in
`diffoscope/tempfiles.py`, which is not under `src/`; per the spec the
workspace is "an explicit scoped resource returned by an acquire function
and released by a single, idempotent release function". -/
structure Workspace where
  name : List Char
  released : Bool
deriving DecidableEq

/-- Modelled from the spec: `self._tmpdir.cleanup()` (Python
`TemporaryDirectory.cleanup`, not under `src/`) — the spec's "single,
idempotent release function": it marks the workspace released and a
second call is a no-op. -/
def Workspace.cleanup (w : Workspace) : Workspace := { w with released := true }

/-- The mutable state of a container object: the `_members` list and the
`_tmpdir` attribute (`none` when the attribute was never set, i.e. when
`open_archive` never ran or failed before `get_temporary_directory`). -/
structure ContainerState where
  members : List RelPath
  tmpdir : Option Workspace
deriving DecidableEq

/-- A container on which `open_archive` has not run. -/
def initialContainer : ContainerState := { members := [], tmpdir := none }

/-- Environment for `AlpineApkV2Container.open_archive`: the temporary
directory name handed out by `get_temporary_directory`, and the outcomes
of the two external extraction attempts — `primary` is the compound shell
command of lines 82-92 (`gunzip | gunzip | tar ... || gunzip | tar ...`),
`fallback` the `tar -xzf` call of lines 96-100.  An `.ok` outcome carries
the directory tree the attempt leaves in the workspace; `.error` models
`subprocess.CalledProcessError`. -/
structure V2ExtractEnv where
  tmpname : List Char
  primary : Except Nat FsTree
  fallback : Except Nat FsTree

/-- `AlpineApkV2Container.open_archive` (lines 71-113): set `_members` to
`[]`, acquire the workspace, run the primary extraction, on its
`CalledProcessError` run the fallback (whose error propagates), then walk
the workspace.  Returns the container state left behind (even on failure,
since the Python attributes stay set) and either the member list or the
propagated error. -/
def open_archive_v2 (env : V2ExtractEnv) : ContainerState × Except Nat (List RelPath) :=
  let c : ContainerState := { members := [], tmpdir := some ⟨env.tmpname, false⟩ }
  match env.primary with
  | .ok t => ({ c with members := walkMembers t }, .ok (walkMembers t))
  | .error _ =>
    match env.fallback with
    | .ok t => ({ c with members := walkMembers t }, .ok (walkMembers t))
    | .error e => (c, .error e)

/-- Environment for `AlpineApkV3Container.open_archive`: the workspace
name and the outcome of the single `apk --allow-untrusted extract` call
(lines 145-156). -/
structure V3ExtractEnv where
  tmpname : List Char
  extraction : Except Nat FsTree

/-- `AlpineApkV3Container.open_archive` (lines 135-169): same shape as the
v2 version but with a single, unguarded extraction call. -/
def open_archive_v3 (env : V3ExtractEnv) : ContainerState × Except Nat (List RelPath) :=
  let c : ContainerState := { members := [], tmpdir := some ⟨env.tmpname, false⟩ }
  match env.extraction with
  | .ok t => ({ c with members := walkMembers t }, .ok (walkMembers t))
  | .error e => (c, .error e)

/-- `close_archive` of both container classes (lines 115-117 and 171-173):
`if hasattr(self, "_tmpdir"): self._tmpdir.cleanup()` — a no-op when the
attribute was never set, otherwise the idempotent cleanup. -/
def close_archive (c : ContainerState) : ContainerState :=
  match c.tmpdir with
  | none => c
  | some w => { c with tmpdir := some w.cleanup }

/-- `ArchiveMember(self, member_name)` (from `.utils.archive`): a handle
holding the requested name; its construction performs no membership
check. -/
structure ApkArchiveMember where
  member_name : RelPath
deriving DecidableEq

/-- `get_member` of both container classes (lines 122-123 and 178-179):
`return ArchiveMember(self, member_name)` for any name whatsoever. -/
def get_member (c : ContainerState) (member_name : RelPath) : ApkArchiveMember :=
  { member_name := member_name }

/-- `extract` of both container classes (lines 125-126 and 181-182):
`return os.path.join(self._tmpdir.name, member_name)`, modelled as joining
with `/`; `none` models the `AttributeError` raised when `_tmpdir` was
never set.  `dest_dir` is ignored exactly as in the source. -/
def extract (c : ContainerState) (member_name : RelPath) (dest_dir : List Char) :
    Option (List Char) :=
  c.tmpdir.map (fun w => w.name ++ slash :: member_name)

/-- The two metadata operations `compare_details` can run:
`AlpineApkV2Metadata` (the `gunzip | tar -xOf - ./PKGINFO` command, lines
50-55) and `AlpineApkV3Metadata` (`apk adbdump`, lines 58-62). -/
inductive MetaStrategy where
  | v2meta
  | v3meta
deriving DecidableEq

/-- Environment for `AlpineApkFile.compare_details`: `read` is the
filesystem (what `open(path, "rb")` yields, as in `detect_apk_version`),
and `run` gives each metadata command's behaviour on a path — `.ok` its
stdout, `.error` a raised exception (tool missing, non-zero exit, ...). -/
structure ToolEnv where
  read : List Char → Option (List Nat)
  run : MetaStrategy → List Char → Except Nat (List Nat)

/-- A produced metadata difference: the two command outputs it compares
(the payload of a diffoscope `Difference`). -/
structure MetaDiff where
  output1 : List Nat
  output2 : List Nat
deriving DecidableEq

/-- The comments `compare_details` can attach via `self.add_comment`:
`"APK version mismatch: {a} vs {b}"` (line 230), `"Both files are APK
v{v}"` (line 232) and `"APK metadata extraction failed: {exc}"` (line
262). -/
inductive ApkComment where
  | versionMismatch (a b : Nat)
  | bothVersion (v : Nat)
  | metadataFailed (e : Nat)
deriving DecidableEq

/-- What one `compare_details` call produces: the comments added on `self`
(in call order) and the returned list of differences. -/
structure CompareResult where
  comments : List ApkComment
  differences : List MetaDiff
deriving DecidableEq

/-- Modelled from the spec: `Difference.from_operation(Op, path1, path2)`
(defined in `diffoscope/difference.py`, not under `src/`) runs the
operation on each path and diffs the outputs; per spec section 6 the
generic differ returns "no difference" when the outputs agree, and a
failure of either command run raises out of it. -/
def from_operation (env : ToolEnv) (s : MetaStrategy) (path1 path2 : List Char) :
    Except Nat (Option MetaDiff) :=
  match env.run s path1 with
  | .error e => .error e
  | .ok o1 =>
    match env.run s path2 with
    | .error e => .error e
    | .ok o2 => .ok (if o1 = o2 then none else some { output1 := o1, output2 := o2 })

/-- The version-comment block of `compare_details` (lines 227-232):
`if my_version and other_version:` — both truthy means both detected,
since detected versions are only `2` or `3` — then either the mismatch or
the same-version comment. -/
def apkVersionComments (my_version other_version : Option Nat) : List ApkComment :=
  match my_version, other_version with
  | some a, some b => if a ≠ b then [.versionMismatch a b] else [.bothVersion a]
  | _, _ => []

/-- The metadata-diff dispatch of `compare_details` (lines 236-255): both
v3 — `apk adbdump`; both v2 — the PKGINFO extraction; otherwise try the v3
operation and, on any exception (the bare `except:`), the v2 operation. -/
def apkMetadataResult (env : ToolEnv) (my_version other_version : Option Nat)
    (p q : List Char) : Except Nat (Option MetaDiff) :=
  if my_version = some 3 ∧ other_version = some 3 then
    from_operation env .v3meta p q
  else if my_version = some 2 ∧ other_version = some 2 then
    from_operation env .v2meta p q
  else
    match from_operation env .v3meta p q with
    | .ok d => .ok d
    | .error _ => from_operation env .v2meta p q

/-- `AlpineApkFile.compare_details` (lines 220-264): detect both versions,
add the version comment, compute the metadata diff, append it to the
returned differences when it is not `None`; if the whole metadata block
raises, add the failure comment instead and return the differences
gathered so far (the outer `except Exception`). -/
def compare_details (env : ToolEnv) (selfPath otherPath : List Char) : CompareResult :=
  let my_version := detect_apk_version (env.read selfPath)
  let other_version := detect_apk_version (env.read otherPath)
  let versionComments := apkVersionComments my_version other_version
  match apkMetadataResult env my_version other_version selfPath otherPath with
  | .ok (some d) => { comments := versionComments, differences := [d] }
  | .ok none => { comments := versionComments, differences := [] }
  | .error e => { comments := versionComments ++ [.metadataFailed e], differences := [] }

/-- The sequence of metadata operations `compare_details` hands to
`Difference.from_operation`, in invocation order: it mirrors the dispatch
of `apkMetadataResult` (lines 236-255) — one operation in the same-version
branches, and in the mixed/unknown branch the v3 operation followed by the
v2 operation exactly when the v3 operation raised. -/
def metadataAttempts (env : ToolEnv) (selfPath otherPath : List Char) : List MetaStrategy :=
  let my_version := detect_apk_version (env.read selfPath)
  let other_version := detect_apk_version (env.read otherPath)
  if my_version = some 3 ∧ other_version = some 3 then [.v3meta]
  else if my_version = some 2 ∧ other_version = some 2 then [.v2meta]
  else
    match from_operation env .v3meta selfPath otherPath with
    | .ok _ => [.v3meta]
    | .error _ => [.v3meta, .v2meta]

/-- Environment for the C2 scenario: the file at `['a']` is a gzip (v2)
APK, every other path an ADBd (v3) APK, and every metadata command
raises. -/
def envC2 : ToolEnv :=
  { read := fun p => if p = ['a'] then some [0x1f, 0x8b, 0, 0] else some [0x41, 0x44, 0x42, 0x64],
    run := fun _ _ => .error 0 }

/-- Environment for the C3 counterexample: every file is unreadable and
every metadata command succeeds with empty output. -/
def envC3 : ToolEnv :=
  { read := fun _ => none,
    run := fun _ _ => .ok [] }

/-- Environment for the C3 witness: a v2 APK at `['a']`, a v3 APK
elsewhere, and every metadata command raising — the comment must appear
anyway. -/
def envC3w : ToolEnv :=
  { read := fun p => if p = ['a'] then some [0x1f, 0x8b, 0, 0] else some [0x41, 0x44, 0x42, 0x64],
    run := fun _ _ => .error 3 }

/-- Environment for the C7 witness: unreadable files, every metadata
command raising. -/
def envC7 : ToolEnv :=
  { read := fun _ => none,
    run := fun _ _ => .error 5 }

/-- An opened container used by C4: empty member list, workspace named
`t`. -/
def exContainerC4 : ContainerState :=
  { members := [], tmpdir := some { name := ['t'], released := false } }

/-! ## Order lemmas for the lexicographic path comparison -/

lemma pathLtB_asymm : ∀ a b : RelPath, pathLtB a b = true → pathLtB b a = false
  | [], [] => by simp [pathLtB]
  | [], _ :: _ => by simp [pathLtB]
  | _ :: _, [] => by simp [pathLtB]
  | a :: as, b :: bs => by
    simp only [pathLtB]
    intro h
    by_cases hab : a < b
    · rw [if_neg (lt_asymm hab), if_pos hab]
    · rw [if_neg hab] at h
      by_cases hba : b < a
      · rw [if_pos hba] at h
        exact absurd h (by simp)
      · rw [if_neg hba] at h
        rw [if_neg hba, if_neg hab]
        exact pathLtB_asymm as bs h

lemma pathLtB_eq_of_not_lt : ∀ a b : RelPath, pathLtB a b = false → pathLtB b a = false → a = b
  | [], [], _, _ => rfl
  | [], _ :: _, h, _ => by simp [pathLtB] at h
  | _ :: _, [], _, h => by simp [pathLtB] at h
  | a :: as, b :: bs, h1, h2 => by
    simp only [pathLtB] at h1 h2
    by_cases hab : a < b
    · rw [if_pos hab] at h1; exact absurd h1 (by simp)
    · by_cases hba : b < a
      · rw [if_pos hba] at h2; exact absurd h2 (by simp)
      · rw [if_neg hab, if_neg hba] at h1
        rw [if_neg hba, if_neg hab] at h2
        have heq : a = b := le_antisymm (not_lt.mp hba) (not_lt.mp hab)
        rw [heq, pathLtB_eq_of_not_lt as bs h1 h2]

lemma pathLtB_trans : ∀ a b c : RelPath, pathLtB a b = true → pathLtB b c = true → pathLtB a c = true
  | [], [], _, h1, _ => by simp [pathLtB] at h1
  | [], _ :: _, [], _, h2 => by simp [pathLtB] at h2
  | [], _ :: _, _ :: _, _, _ => by simp [pathLtB]
  | _ :: _, [], _, h1, _ => by simp [pathLtB] at h1
  | _ :: _, _ :: _, [], _, h2 => by simp [pathLtB] at h2
  | a :: as, b :: bs, c :: cs, h1, h2 => by
    simp only [pathLtB] at h1 h2 ⊢
    by_cases hab : a < b
    · by_cases hbc : b < c
      · rw [if_pos (lt_trans hab hbc)]
      · rw [if_neg hbc] at h2
        by_cases hcb : c < b
        · rw [if_pos hcb] at h2; exact absurd h2 (by simp)
        · have hbceq : b = c := le_antisymm (not_lt.mp hcb) (not_lt.mp hbc)
          rw [if_pos (hbceq ▸ hab)]
    · rw [if_neg hab] at h1
      by_cases hba : b < a
      · rw [if_pos hba] at h1; exact absurd h1 (by simp)
      · rw [if_neg hba] at h1
        have hab' : a = b := le_antisymm (not_lt.mp hba) (not_lt.mp hab)
        subst hab'
        by_cases hac : a < c
        · rw [if_pos hac]
        · rw [if_neg hac] at h2 ⊢
          by_cases hca : c < a
          · rw [if_pos hca] at h2; exact absurd h2 (by simp)
          · rw [if_neg hca] at h2 ⊢
            exact pathLtB_trans as bs cs h1 h2

lemma pathLe_total (a b : RelPath) : pathLe a b = true ∨ pathLe b a = true := by
  by_cases h : pathLtB b a = true
  · right; simp [pathLe, pathLtB_asymm b a h]
  · left; simp [pathLe, Bool.not_eq_true] at h ⊢; exact h

lemma pathLe_trans {a b c : RelPath} (h1 : pathLe a b = true) (h2 : pathLe b c = true) :
    pathLe a c = true := by
  simp only [pathLe, Bool.not_eq_true'] at h1 h2 ⊢
  by_contra hca
  rw [Bool.not_eq_false] at hca
  by_cases hab : pathLtB a b = true
  · exact absurd (pathLtB_trans c a b hca hab) (by simp [h2])
  · rw [Bool.not_eq_true] at hab
    rw [pathLtB_eq_of_not_lt a b hab h1] at hca
    simp [h2] at hca

/-! ## The member walk: no duplicates, order shape -/

lemma prefix_slash_inj : ∀ (d1 d2 p1 p2 : RelPath), slash ∉ d1 → slash ∉ d2 →
    d1 ++ slash :: p1 = d2 ++ slash :: p2 → d1 = d2
  | [], [], _, _, _, _, _ => rfl
  | [], c :: cs, p1, p2, _, h2, h => by
    simp only [List.nil_append, List.cons_append, List.cons.injEq] at h
    exact absurd (by rw [h.1]; exact List.mem_cons_self c cs) h2
  | a :: as, [], p1, p2, h1, _, h => by
    simp only [List.nil_append, List.cons_append, List.cons.injEq] at h
    exact absurd (by rw [← h.1]; exact List.mem_cons_self a as) h1
  | a :: as, b :: bs, p1, p2, h1, h2, h => by
    simp only [List.cons_append, List.cons.injEq] at h
    have htail := prefix_slash_inj as bs p1 p2
      (fun hm => h1 (List.mem_cons_of_mem a hm))
      (fun hm => h2 (List.mem_cons_of_mem b hm)) h.2
    rw [h.1, htail]

lemma walkMembers_nodup : ∀ t : FsTree, t.WF → (walkMembers t).Nodup := by
  intro t
  induction t using walkMembers.induct with
  | _ files dirs ih =>
    intro hwf
    cases hwf with
    | node hf hd hfs hds hsub =>
      rw [walkMembers]
      apply List.Nodup.append
      · exact ((List.perm_insertionSort fileOrder files).nodup_iff).mpr hf
      · rw [List.nodup_flatMap]
        constructor
        · intro x hx
          refine List.Nodup.map ?_ (ih x (hsub x.1 x.2))
          intro p1 p2 hpq
          have h2 := List.append_cancel_left hpq
          injection h2
        · have hmapeq : List.map (fun b : {d // d ∈ dirs} => (Subtype.val b).1) dirs.attach
              = List.map Prod.fst dirs := by
            conv_rhs => rw [← List.attach_map_subtype_val dirs]
            rw [List.map_map]
            rfl
          have h2 : dirs.attach.Pairwise
              (fun a b : {d // d ∈ dirs} => (Subtype.val a).1 ≠ (Subtype.val b).1) :=
            List.pairwise_map.mp (by rw [hmapeq]; exact hd)
          have h4 : (List.insertionSort (fun a b => pathLe a.1.1 b.1.1 = true)
              dirs.attach).Pairwise (fun a b => a.1.1 ≠ b.1.1) :=
            ((List.perm_insertionSort _ _).pairwise_iff (fun h => h.symm)).mpr h2
          refine h4.imp ?_
          intro a b hne
          simp only [Function.onFun]
          intro y hya hyb
          obtain ⟨q1, hq1, hy1⟩ := List.mem_map.mp hya
          obtain ⟨q2, hq2, hy2⟩ := List.mem_map.mp hyb
          exact hne (prefix_slash_inj a.1.1 b.1.1 q1 q2 (hds a.1 a.2) (hds b.1 b.2)
            (hy1.trans hy2.symm))
      · intro y hyf hyflat
        have hyfile : y ∈ files := ((List.perm_insertionSort fileOrder files).mem_iff).mp hyf
        obtain ⟨x, hx, hyx⟩ := List.mem_flatMap.mp hyflat
        obtain ⟨q, hq, hyq⟩ := List.mem_map.mp hyx
        apply hfs y hyfile
        rw [← hyq]
        exact List.mem_append_right _ (List.mem_cons_self _ _)

lemma walkMembers_flat_sorted (files : List RelPath) (hf : files.Nodup) :
    (walkMembers (.node files [])).Pairwise (fun a b => pathLtB a b = true) := by
  haveI : IsTotal RelPath fileOrder := ⟨pathLe_total⟩
  haveI : IsTrans RelPath fileOrder := ⟨fun a b c => pathLe_trans⟩
  have hs : (List.insertionSort fileOrder files).Pairwise fileOrder :=
    List.sorted_insertionSort fileOrder files
  have hn : (List.insertionSort fileOrder files).Pairwise (fun a b => a ≠ b) :=
    ((List.perm_insertionSort fileOrder files).nodup_iff).mpr hf
  have hflat : walkMembers (.node files []) = List.insertionSort fileOrder files ++ [] := by
    rw [walkMembers]
    rfl
  rw [hflat, List.append_nil]
  refine (hs.and hn).imp ?_
  intro a b hab
  obtain ⟨hle, hne⟩ := hab
  by_contra hlt
  rw [Bool.not_eq_true] at hlt
  have hle2 : pathLe a b = true := hle
  rw [pathLe, Bool.not_eq_true'] at hle2
  exact hne (pathLtB_eq_of_not_lt a b hlt hle2)

/-! ## Helper facts about `compare_details` -/

lemma apkVersionComments_of_ne (a b : Nat) (h : a ≠ b) :
    apkVersionComments (some a) (some b) = [.versionMismatch a b] := by
  simp [apkVersionComments, h]

lemma apkVersionComments_of_eq (a : Nat) :
    apkVersionComments (some a) (some a) = [.bothVersion a] := by
  simp [apkVersionComments]

lemma apkVersionComments_no_mismatch (v : Option Nat) (a b : Nat) :
    ApkComment.versionMismatch a b ∉ apkVersionComments v v := by
  unfold apkVersionComments
  cases v with
  | none => simp
  | some x => simp

lemma from_operation_self (env : ToolEnv) (s : MetaStrategy) (p : List Char) :
    from_operation env s p p = .ok none ∨ ∃ e, from_operation env s p p = .error e := by
  unfold from_operation
  cases hrun : env.run s p with
  | error e => exact .inr ⟨e, rfl⟩
  | ok o => simp

lemma apkMetadataResult_self (env : ToolEnv) (v w : Option Nat) (p : List Char) :
    apkMetadataResult env v w p p = .ok none ∨
      ∃ e, apkMetadataResult env v w p p = .error e := by
  unfold apkMetadataResult
  by_cases hv3 : v = some 3 ∧ w = some 3
  · rw [if_pos hv3]
    exact from_operation_self env .v3meta p
  · rw [if_neg hv3]
    by_cases hv2 : v = some 2 ∧ w = some 2
    · rw [if_pos hv2]
      exact from_operation_self env .v2meta p
    · rw [if_neg hv2]
      rcases from_operation_self env .v3meta p with h | ⟨e, h⟩
      · rw [h]
        exact .inl rfl
      · rw [h]
        exact from_operation_self env .v2meta p

lemma apkMetadataResult_all_error (env : ToolEnv) (v w : Option Nat) (p q : List Char)
    (e3 e2 : Nat) (h3 : from_operation env .v3meta p q = .error e3)
    (h2 : from_operation env .v2meta p q = .error e2) :
    apkMetadataResult env v w p q = .error e3 ∨ apkMetadataResult env v w p q = .error e2 := by
  unfold apkMetadataResult
  by_cases hv3 : v = some 3 ∧ w = some 3
  · rw [if_pos hv3]
    exact .inl h3
  · rw [if_neg hv3]
    by_cases hv2 : v = some 2 ∧ w = some 2
    · rw [if_pos hv2]
      exact .inr h2
    · rw [if_neg hv2, h3]
      exact .inr h2

lemma compare_details_comments_ok (env : ToolEnv) (p q : List Char) (od : Option MetaDiff)
    (hm : apkMetadataResult env (detect_apk_version (env.read p))
      (detect_apk_version (env.read q)) p q = .ok od) :
    (compare_details env p q).comments =
      apkVersionComments (detect_apk_version (env.read p)) (detect_apk_version (env.read q)) := by
  simp only [compare_details]
  rw [hm]
  cases od <;> rfl

lemma compare_details_comments_error (env : ToolEnv) (p q : List Char) (e : Nat)
    (hm : apkMetadataResult env (detect_apk_version (env.read p))
      (detect_apk_version (env.read q)) p q = .error e) :
    (compare_details env p q).comments =
      apkVersionComments (detect_apk_version (env.read p))
          (detect_apk_version (env.read q)) ++ [.metadataFailed e] := by
  simp only [compare_details]
  rw [hm]

lemma compare_details_differences_ok_none (env : ToolEnv) (p q : List Char)
    (hm : apkMetadataResult env (detect_apk_version (env.read p))
      (detect_apk_version (env.read q)) p q = .ok none) :
    (compare_details env p q).differences = [] := by
  simp only [compare_details]
  rw [hm]

lemma compare_details_differences_error (env : ToolEnv) (p q : List Char) (e : Nat)
    (hm : apkMetadataResult env (detect_apk_version (env.read p))
      (detect_apk_version (env.read q)) p q = .error e) :
    (compare_details env p q).differences = [] := by
  simp only [compare_details]
  rw [hm]

/-! ## Well-formed example workspaces for C1 -/

lemma wfFlatExample : FsTree.WF (.node [['a'], ['b']] []) :=
  FsTree.WF.node (by decide) (by decide) (by decide) (by decide)
    (by intro d hd; exact absurd hd (List.not_mem_nil d))

lemma wfCexInner : FsTree.WF (.node [['x']] []) :=
  FsTree.WF.node (by decide) (by decide) (by decide) (by decide)
    (by intro d hd; exact absurd hd (List.not_mem_nil d))

lemma wfCexTree : FsTree.WF (.node [['b']] [(['a'], .node [['x']] [])]) :=
  FsTree.WF.node (by decide) (by decide) (by decide) (by decide)
    (by
      intro d hd
      rw [List.mem_singleton] at hd
      subst hd
      exact wfCexInner)

/-! ## Claim theorems -/

/-- Claim C1, amended.  The claim asserts that the member list computed at
open time has no duplicates and is ordered strictly lexicographically by
full relative path.  The no-duplicates half holds for every well-formed
workspace; the ordering half is false in general (see the counterexample:
`os.walk` emits the files of a directory before the contents of its
subdirectories), and holds in the amended form: when the workspace has no
subdirectories, the member list is strictly lexicographically sorted. -/
theorem open_archive_members_nodup (files : List RelPath) (dirs : List (RelPath × FsTree))
    (h : FsTree.WF (.node files dirs)) :
    (walkMembers (.node files dirs)).Nodup ∧
      (dirs = [] →
        (walkMembers (.node files dirs)).Pairwise (fun a b => pathLtB a b = true)) := by
  refine ⟨walkMembers_nodup _ h, ?_⟩
  rintro rfl
  cases h with
  | node hf _ _ _ _ => exact walkMembers_flat_sorted files hf

/-- Witness for C1: the amended theorem applied to the concrete flat
workspace holding files `a` and `b`. -/
theorem open_archive_members_nodup_witness :
    (walkMembers (.node [['a'], ['b']] [])).Nodup ∧
      (([] : List (RelPath × FsTree)) = [] →
        (walkMembers (.node [['a'], ['b']] [])).Pairwise (fun a b => pathLtB a b = true)) :=
  open_archive_members_nodup [['a'], ['b']] [] wfFlatExample

/-- Counterexample for C1 as stated: the well-formed workspace with file
`b` at the root and file `x` inside directory `a` enumerates as
`[b, a/x]`, which is not strictly lexicographically sorted (`a/x < b`). -/
theorem open_archive_members_not_lex_counterexample :
    FsTree.WF (.node [['b']] [(['a'], .node [['x']] [])]) ∧
      ¬ (walkMembers (.node [['b']] [(['a'], .node [['x']] [])])).Pairwise
          (fun a b => pathLtB a b = true) := by
  refine ⟨wfCexTree, ?_⟩
  have heval : walkMembers (.node [['b']] [(['a'], .node [['x']] [])])
      = [['b'], ['a', '/', 'x']] := by
    simp [walkMembers, List.insertionSort, List.orderedInsert, List.attach, List.attachWith,
      List.pmap, slash]
  rw [heval]
  decide

/-- Claim C2, amended.  The claim asserts that in the mixed/unrecognized
case the first input's variant strategy is attempted first.  In the code
the order is fixed: the v3 operation (`apk adbdump`) is always attempted
first and the v2 operation exactly when the v3 operation raised,
regardless of which input carries which variant. -/
theorem metadata_mixed_tries_v3_then_v2 (env : ToolEnv) (p q : List Char)
    (h3 : ¬ (detect_apk_version (env.read p) = some 3 ∧
      detect_apk_version (env.read q) = some 3))
    (h2 : ¬ (detect_apk_version (env.read p) = some 2 ∧
      detect_apk_version (env.read q) = some 2)) :
    (metadataAttempts env p q).head? = some .v3meta ∧
      (MetaStrategy.v2meta ∈ metadataAttempts env p q ↔
        ∃ e, from_operation env .v3meta p q = .error e) := by
  simp only [metadataAttempts]
  rw [if_neg h3, if_neg h2]
  cases hop : from_operation env .v3meta p q with
  | ok od => simp [hop]
  | error e => simp [hop]

/-- Witness for C2: in the concrete mixed scenario (`['a']` a v2 file,
`['b']` a v3 file, every command failing) the v3 operation is attempted
first and the v2 operation is attempted because the v3 one raised. -/
theorem metadata_mixed_tries_v3_then_v2_witness :
    (metadataAttempts envC2 ['a'] ['b']).head? = some .v3meta ∧
      (MetaStrategy.v2meta ∈ metadataAttempts envC2 ['a'] ['b'] ↔
        ∃ e, from_operation envC2 .v3meta ['a'] ['b'] = .error e) :=
  metadata_mixed_tries_v3_then_v2 envC2 ['a'] ['b'] (by decide) (by decide)

/-- Counterexample for C2 as stated: the first input is a v2 file, the
second a v3 file, yet the first attempted operation is the v3 one, not
the first input's (v2) strategy. -/
theorem metadata_mixed_order_counterexample :
    detect_apk_version (envC2.read ['a']) = some 2 ∧
      detect_apk_version (envC2.read ['b']) = some 3 ∧
      (metadataAttempts envC2 ['a'] ['b']).head? = some .v3meta ∧
      MetaStrategy.v3meta ≠ MetaStrategy.v2meta := by
  decide

/-- Claim C3, amended.  The claim asserts a variant comment is emitted for
every pair of inputs.  In the code the comment block is guarded by
`if my_version and other_version:`, so it is emitted exactly when both
variants were detected; in that case it is the first comment (hence
before any metadata diff or failure comment) and it is emitted whatever
the metadata operations do.  Two inputs of different detected variants do
always get the mismatch comment. -/
theorem version_comment_when_detected (env : ToolEnv) (p q : List Char) (a b : Nat)
    (hp : detect_apk_version (env.read p) = some a)
    (hq : detect_apk_version (env.read q) = some b) :
    (a ≠ b → (compare_details env p q).comments.head? = some (.versionMismatch a b)) ∧
      (a = b → (compare_details env p q).comments.head? = some (.bothVersion a)) := by
  have hhead : ∀ c : ApkComment,
      apkVersionComments (detect_apk_version (env.read p))
          (detect_apk_version (env.read q)) = [c] →
        (compare_details env p q).comments.head? = some c := by
    intro c hc
    rcases hmr : apkMetadataResult env (detect_apk_version (env.read p))
        (detect_apk_version (env.read q)) p q with e | od
    · rw [compare_details_comments_error env p q e hmr, hc]
      rfl
    · rw [compare_details_comments_ok env p q od hmr, hc]
      rfl
  constructor
  · intro hne
    refine hhead _ ?_
    rw [hp, hq]
    exact apkVersionComments_of_ne a b hne
  · intro heq
    subst heq
    refine hhead _ ?_
    rw [hp, hq]
    exact apkVersionComments_of_eq a

/-- Witness for C3: a concrete v2/v3 pair whose metadata operations all
raise still gets the mismatch comment, as the first comment. -/
theorem version_comment_when_detected_witness :
    (compare_details envC3w ['a'] ['b']).comments.head? =
      some (ApkComment.versionMismatch 2 3) :=
  (version_comment_when_detected envC3w ['a'] ['b'] 2 3 (by decide) (by decide)).1
    (by decide)

/-- Counterexample for C3 as stated: with both inputs unreadable (variants
undetected) and metadata operations succeeding identically,
`compare_details` emits no comment at all. -/
theorem version_comment_counterexample :
    (compare_details envC3 ['a'] ['b']).comments = [] := by
  decide

/-- Claim C4, amended.  The claim asserts that requesting a
non-enumerated member through `get_member`/`extract` is an error.  In the
code neither method consults `_members`: `get_member` wraps any name in an
`ArchiveMember` and `extract` returns `os.path.join(self._tmpdir.name,
member_name)` — a fabricated path — for absent names just as for present
ones. -/
theorem get_member_extract_no_check (c : ContainerState) (name : RelPath)
    (dest : List Char) (w : Workspace) (h : name ∉ c.members) (hw : c.tmpdir = some w) :
    get_member c name = { member_name := name } ∧
      extract c name dest = some (w.name ++ slash :: name) := by
  refine ⟨rfl, ?_⟩
  simp [extract, hw]

/-- Witness for C4: the amended theorem at the opened container with an
empty member list and the absent name `f`. -/
theorem get_member_extract_no_check_witness :
    get_member exContainerC4 ['f'] = { member_name := ['f'] } ∧
      extract exContainerC4 ['f'] [] = some (['t'] ++ slash :: ['f']) :=
  get_member_extract_no_check exContainerC4 ['f'] [] { name := ['t'], released := false }
    (by decide) rfl

/-- Counterexample for C4 as stated: `f` is not in the member list, yet
`extract` silently returns the fabricated joined path and `get_member`
returns a member handle — no error value exists on this code path. -/
theorem get_member_extract_no_check_counterexample :
    ['f'] ∉ exContainerC4.members ∧
      extract exContainerC4 ['f'] [] = some ['t', '/', 'f'] ∧
      get_member exContainerC4 ['f'] = { member_name := ['f'] } := by
  decide

/-- Claim C5: `detect_apk_version` returns `3` on an `ADBd` header, `2` on
a gzip header, `None` otherwise; an unreadable input (`none`) and any
input shorter than the shortest signature yield `None`.  The model is a
total function, so no exception can escape. -/
theorem detect_apk_version_spec :
    (∀ b : List Nat, adbdMagic.isPrefixOf b = true → detect_apk_version (some b) = some 3) ∧
      (∀ b : List Nat, gzipMagic.isPrefixOf b = true → detect_apk_version (some b) = some 2) ∧
      (∀ b : List Nat, adbdMagic.isPrefixOf b = false → gzipMagic.isPrefixOf b = false →
        detect_apk_version (some b) = none) ∧
      detect_apk_version none = none ∧
      (∀ b : List Nat, b.length < 2 → detect_apk_version (some b) = none) := by
  have htake : ∀ (m b : List Nat), m.length ≤ 16 →
      m.isPrefixOf (b.take 16) = m.isPrefixOf b := by
    intro m b hm
    rw [Bool.eq_iff_iff, List.isPrefixOf_iff_prefix, List.isPrefixOf_iff_prefix,
      List.prefix_take_iff]
    exact and_iff_left hm
  have hshort : ∀ b : List Nat, b.length < 2 →
      adbdMagic.isPrefixOf b = false ∧ gzipMagic.isPrefixOf b = false := by
    intro b hlen
    constructor <;>
      · rw [Bool.eq_false_iff, Ne, List.isPrefixOf_iff_prefix]
        intro h
        have hle := h.length_le
        simp [adbdMagic, gzipMagic] at hle
        omega
  have hdisj : ∀ b : List Nat, gzipMagic.isPrefixOf b = true →
      adbdMagic.isPrefixOf b = false := by
    intro b hg
    rw [List.isPrefixOf_iff_prefix] at hg
    rw [Bool.eq_false_iff, Ne, List.isPrefixOf_iff_prefix]
    intro ha
    obtain ⟨t1, ht1⟩ := hg
    obtain ⟨t2, ht2⟩ := ha
    rw [← ht1] at ht2
    simp [adbdMagic, gzipMagic] at ht2
  refine ⟨?_, ?_, ?_, rfl, ?_⟩
  · intro b h
    simp only [detect_apk_version]
    rw [htake adbdMagic b (by decide), h]
    rfl
  · intro b h
    simp only [detect_apk_version]
    rw [htake adbdMagic b (by decide), htake gzipMagic b (by decide), hdisj b h, h]
    rfl
  · intro b h1 h2
    simp only [detect_apk_version]
    rw [htake adbdMagic b (by decide), htake gzipMagic b (by decide), h1, h2]
    rfl
  · intro b hlen
    obtain ⟨h1, h2⟩ := hshort b hlen
    simp only [detect_apk_version]
    rw [htake adbdMagic b (by decide), htake gzipMagic b (by decide), h1, h2]
    rfl

/-- Witness for C5: concrete headers of each kind. -/
theorem detect_apk_version_spec_witness :
    detect_apk_version (some [0x41, 0x44, 0x42, 0x64, 0]) = some 3 ∧
      detect_apk_version (some [0x1f, 0x8b]) = some 2 ∧
      detect_apk_version (some [0, 0, 0]) = none ∧
      detect_apk_version (some [0x1f]) = none :=
  ⟨detect_apk_version_spec.1 _ (by decide),
   detect_apk_version_spec.2.1 _ (by decide),
   detect_apk_version_spec.2.2.1 _ (by decide) (by decide),
   detect_apk_version_spec.2.2.2.2 _ (by decide)⟩

/-- Claim C6: `AlpineApkV2Container.open_archive` swallows the primary
extraction failure and raises only if the fallback also fails; when the
primary fails but the fallback succeeds, the open succeeds and the member
list is the one enumerated from the fallback's extraction. -/
theorem open_archive_v2_fallback (env : V2ExtractEnv) :
    (∀ e, (open_archive_v2 env).2 = .error e →
      (∃ e2, env.primary = .error e2) ∧ env.fallback = .error e) ∧
      (∀ e t, env.primary = .error e → env.fallback = .ok t →
        (open_archive_v2 env).2 = .ok (walkMembers t) ∧
          (open_archive_v2 env).1.members = walkMembers t) ∧
      (∀ t, env.primary = .ok t → (open_archive_v2 env).2 = .ok (walkMembers t)) := by
  refine ⟨?_, ?_, ?_⟩
  · intro e he
    cases hp : env.primary with
    | ok t =>
      rw [open_archive_v2, hp] at he
      simp at he
    | error e2 =>
      cases hf : env.fallback with
      | ok t =>
        rw [open_archive_v2, hp, hf] at he
        simp at he
      | error e3 =>
        rw [open_archive_v2, hp, hf] at he
        simp only [Except.error.injEq] at he
        exact ⟨⟨e2, rfl⟩, by rw [he]⟩
  · intro e t hp hf
    rw [open_archive_v2, hp, hf]
    exact ⟨rfl, rfl⟩
  · intro t hp
    rw [open_archive_v2, hp]

/-- Witness for C6: a concrete environment whose primary attempt fails
and whose fallback extracts a one-file tree; the open succeeds with that
tree's member list. -/
theorem open_archive_v2_fallback_witness :
    (open_archive_v2 ⟨['t'], .error 1, .ok (.node [['f']] [])⟩).2 =
        .ok (walkMembers (.node [['f']] [])) ∧
      (open_archive_v2 ⟨['t'], .error 1, .ok (.node [['f']] [])⟩).1.members =
        walkMembers (.node [['f']] []) :=
  (open_archive_v2_fallback ⟨['t'], .error 1, .ok (.node [['f']] [])⟩).2.1 1
    (.node [['f']] []) rfl rfl

/-- Claim C7: when every metadata operation raises, `compare_details`
returns normally (the model is a total function), with the failure
comment recorded and the differences gathered so far — the empty list,
since the metadata diff is the only difference this method can gather. -/
theorem metadata_failure_degrades (env : ToolEnv) (p q : List Char) (e3 e2 : Nat)
    (h3 : from_operation env .v3meta p q = .error e3)
    (h2 : from_operation env .v2meta p q = .error e2) :
    (compare_details env p q).differences = [] ∧
      ∃ e, ApkComment.metadataFailed e ∈ (compare_details env p q).comments := by
  rcases apkMetadataResult_all_error env (detect_apk_version (env.read p))
      (detect_apk_version (env.read q)) p q e3 e2 h3 h2 with hm | hm
  · refine ⟨compare_details_differences_error env p q e3 hm, e3, ?_⟩
    rw [compare_details_comments_error env p q e3 hm]
    exact List.mem_append_right _ (List.mem_cons_self _ _)
  · refine ⟨compare_details_differences_error env p q e2 hm, e2, ?_⟩
    rw [compare_details_comments_error env p q e2 hm]
    exact List.mem_append_right _ (List.mem_cons_self _ _)

/-- Witness for C7: the environment in which every command raises. -/
theorem metadata_failure_degrades_witness :
    (compare_details envC7 ['a'] ['b']).differences = [] ∧
      ∃ e, ApkComment.metadataFailed e ∈ (compare_details envC7 ['a'] ['b']).comments :=
  metadata_failure_degrades envC7 ['a'] ['b'] 5 5 rfl rfl

/-- Claim C8: comparing a file with itself yields no differences — the
version comment degenerates to the same-version form (never a mismatch),
and the metadata operations, run twice on the same path, produce equal
outputs and hence no metadata diff (or raise, which also contributes no
difference).  Member diffs are outside `compare_details`: the returned
list is exactly the metadata-diff list. -/
theorem compare_self_empty (env : ToolEnv) (p : List Char) :
    (compare_details env p p).differences = [] ∧
      ∀ a b : Nat, ApkComment.versionMismatch a b ∉ (compare_details env p p).comments := by
  rcases apkMetadataResult_self env (detect_apk_version (env.read p))
      (detect_apk_version (env.read p)) p with hm | ⟨e, hm⟩
  · refine ⟨compare_details_differences_ok_none env p p hm, ?_⟩
    intro a b
    rw [compare_details_comments_ok env p p none hm]
    exact apkVersionComments_no_mismatch _ a b
  · refine ⟨compare_details_differences_error env p p e hm, ?_⟩
    intro a b
    rw [compare_details_comments_error env p p e hm]
    intro hmem
    rcases List.mem_append.mp hmem with hcm | hcm
    · exact apkVersionComments_no_mismatch _ a b hcm
    · rw [List.mem_singleton] at hcm
      simp at hcm

/-- Claim C9: `close_archive` is a no-op on a container that never
acquired a workspace, repeated closes are no-ops, and after any
`open_archive` outcome (success or failure) closing releases the
workspace. -/
theorem close_archive_safe :
    close_archive initialContainer = initialContainer ∧
      (∀ c : ContainerState, close_archive (close_archive c) = close_archive c) ∧
      (∀ env : V2ExtractEnv,
        (close_archive (open_archive_v2 env).1).tmpdir = some ⟨env.tmpname, true⟩) ∧
      (∀ env : V3ExtractEnv,
        (close_archive (open_archive_v3 env).1).tmpdir = some ⟨env.tmpname, true⟩) := by
  refine ⟨rfl, ?_, ?_, ?_⟩
  · intro c
    rcases c with ⟨m, _ | w⟩
    · rfl
    · rfl
  · intro env
    rw [open_archive_v2]
    cases env.primary with
    | ok t => rfl
    | error e =>
      cases env.fallback with
      | ok t => rfl
      | error e2 => rfl
  · intro env
    rw [open_archive_v3]
    cases env.extraction with
    | ok t => rfl
    | error e => rfl

/-- Claim C10: `recognizes` accepts exactly the files whose name ends in
`.apk` and whose header one of the two detectors accepts — equivalently,
on which `detect_apk_version` succeeds (an unreadable file is rejected,
not an exception, since the model is total) — and `as_container` is
`None` exactly when `detect_apk_version` is. -/
theorem recognizes_as_container_spec (f : ModelFile) :
    (recognizes f = true ↔
      apkSuffix.isSuffixOf f.name = true ∧ detect_apk_version f.content ≠ none) ∧
      (as_container f = none ↔ detect_apk_version f.content = none) := by
  constructor
  · cases hsuf : apkSuffix.isSuffixOf f.name with
    | false => simp [recognizes, hsuf]
    | true =>
      cases hc : f.content with
      | none => simp [recognizes, detect_apk_version, hsuf, hc]
      | some bytes =>
        by_cases h1 : adbdMagic.isPrefixOf (bytes.take 16) = true
        · simp [recognizes, detect_apk_version, hsuf, hc, h1]
        · rw [Bool.not_eq_true] at h1
          by_cases h2 : gzipMagic.isPrefixOf (bytes.take 16) = true
          · simp [recognizes, detect_apk_version, hsuf, hc, h1, h2]
          · rw [Bool.not_eq_true] at h2
            simp [recognizes, detect_apk_version, hsuf, hc, h1, h2]
  · unfold as_container
    cases hc : f.content with
    | none => simp [detect_apk_version]
    | some bytes =>
      by_cases h1 : adbdMagic.isPrefixOf (bytes.take 16) = true
      · simp [detect_apk_version, h1]
      · rw [Bool.not_eq_true] at h1
        by_cases h2 : gzipMagic.isPrefixOf (bytes.take 16) = true
        · simp [detect_apk_version, h1, h2]
        · rw [Bool.not_eq_true] at h2
          simp [detect_apk_version, h1, h2]
